import Mathlib

/-!
Shallow embedding of `src/life.py` (Conway's Game of Life), covering the
`Board` class (construction from a seed, neighbor lookup) and the
generation step performed by the `main` loop.

Cells are the two glyph constants `DEAD` / `ALIVE` of the source, modelled
as a two-constructor inductive.  Coordinates are integer pairs, since the
Python code freely forms `i + di` with `di ∈ {-1,0,1}` and seed
coordinates may be negative (Python negative indexing).  Board
construction models Python list-index assignment exactly: an index in
`[-len, len)` is accepted (negative values wrap to `len + i`), anything
else raises `IndexError`, modelled as `none`.
-/

/-- A cell value: `DEAD = "_"` or `ALIVE = "█"` in the source. -/
inductive Cell where
  | dead : Cell
  | alive : Cell
deriving DecidableEq, Repr

open Cell

/-- Python list read `l[i]` restricted to the in-range case, with a
default for the (never exercised) out-of-range case. -/
def pyGetD (l : List α) (i : Int) (dflt : α) : α :=
  l.getD i.toNat dflt

/-- Normalize a Python list index for a list of length `len`:
`some` of the actual position for `i ∈ [-len, len)`, `none` (IndexError)
otherwise. -/
def pyIndex (len : Nat) (i : Int) : Option Nat :=
  if 0 ≤ i ∧ i < (len : Int) then some i.toNat
  else if -(len : Int) ≤ i ∧ i < 0 then some (i + len).toNat
  else none

/-- The board state of the Python `Board` class: the dimensions and the
rectangular cell array (`self.rows`, `self.cols`, `self.board`). -/
structure Board where
  rows : Nat
  cols : Nat
  board : List (List Cell)
deriving DecidableEq, Repr

/-- `self.board[i][j] = ALIVE` — Python item assignment on the nested
list: fails (IndexError) when either index is outside
`[-len, len)` of the corresponding list, wraps negative indices. -/
def setAlive (b : List (List Cell)) (i j : Int) : Option (List (List Cell)) := do
  let i' ← pyIndex b.length i
  let row := b.getD i' []
  let j' ← pyIndex row.length j
  pure (b.set i' (row.set j' alive))

/-- `Board.__init__`: build a blank `rows × cols` board of `DEAD` cells,
then set each seed coordinate to `ALIVE` (`self.board[i][j] = ALIVE`).
Returns `none` when the Python code would raise `IndexError`. -/
def Board.init (rows cols : Nat) (seed : List (Int × Int)) : Option Board := do
  let blank := List.replicate rows (List.replicate cols dead)
  let b ← seed.foldlM (fun b p => setAlive b p.1 p.2) blank
  pure ⟨rows, cols, b⟩

/-- The eight compass directions, the keys of `DIRECTIONAL_MAP`. -/
inductive Dir where
  | nw | n | ne | w | e | sw | s | se
deriving DecidableEq, Repr

/-- `DIRECTIONAL_MAP`: each direction's `(Δrow, Δcol)` offset. -/
def DIRECTIONAL_MAP : Dir → Int × Int
  | .nw => (-1, -1)
  | .n => (-1, 0)
  | .ne => (-1, 1)
  | .w => (0, -1)
  | .e => (0, 1)
  | .sw => (1, -1)
  | .s => (1, 0)
  | .se => (1, 1)

/-- The iteration order `["nw", "n", "ne", "w", "e", "sw", "s", "se"]`
used by `get_live_neighbors`. -/
def directionOrder : List Dir := [.nw, .n, .ne, .w, .e, .sw, .s, .se]

/-- `Board.get_inbound_coords`: offset `coords` by the direction and
return the result unless any bound check fails (then `None`). -/
def Board.get_inbound_coords (g : Board) (coords : Int × Int) (d : Dir) :
    Option (Int × Int) :=
  let off := DIRECTIONAL_MAP d
  let nc := (coords.1 + off.1, coords.2 + off.2)
  if nc.1 < 0 ∨ nc.2 < 0 ∨ nc.1 > (g.rows : Int) - 1 ∨ nc.2 > (g.cols : Int) - 1 then
    none
  else
    some nc

/-- `self.board[i][j]` at coordinates already known to be non-negative
(all reads in the source go through `get_inbound_coords` or
`enumerate`). -/
def Board.cellAt (g : Board) (p : Int × Int) : Cell :=
  pyGetD (pyGetD g.board p.1 []) p.2 dead

/-- The spec's `neighborsOf`: the in-bounds neighbor coordinates in the
fixed direction order — the sub-computation of `get_live_neighbors`
before the aliveness filter. -/
def neighborsOf (g : Board) (coords : Int × Int) : List (Int × Int) :=
  directionOrder.filterMap (g.get_inbound_coords coords)

/-- `Board.get_live_neighbors`: the in-bounds neighbors whose cell is
`ALIVE`, in the fixed direction order. -/
def Board.get_live_neighbors (g : Board) (coords : Int × Int) : List (Int × Int) :=
  (neighborsOf g coords).filter (fun p => g.cellAt p = alive)

/-- The spec's `liveNeighborCount`: how many of `neighborsOf(coord)`
hold a live cell. -/
def liveNeighborCount (g : Board) (coords : Int × Int) : Nat :=
  ((neighborsOf g coords).filter (fun p => g.cellAt p = alive)).length

/-- The `num_neighbors` expression of `main`: the length of
`[game.board[x][y] for x, y in game.get_live_neighbors((i, j))
  if game.board[x][y] == ALIVE]`. -/
def numNeighbors (g : Board) (coords : Int × Int) : Nat :=
  ((g.get_live_neighbors coords).filter (fun p => g.cellAt p = alive)).length

/-- One cell's treatment inside the tick loop of `main`: the value
written to `next_board[i][j]`, paired with the value `is_over` holds
after this cell (`false` exactly when one of the three rule branches
fired). -/
def tickCell (g : Board) (i j : Int) (item : Cell) : Cell × Bool :=
  let n := numNeighbors g (i, j)
  if item = dead ∧ n = 3 then (alive, false)
  else if item = alive ∧ n ≥ 4 then (dead, false)
  else if item = alive ∧ n ≤ 1 then (dead, false)
  else (item, true)

/-- `next_board[i][j] = v` in the tick loop: indices here come from
`enumerate`, hence are natural numbers and in range. -/
def setCell2 (b : List (List Cell)) (i j : Nat) (v : Cell) : List (List Cell) :=
  b.set i ((b.getD i []).set j v)

/-- The body of the tick in `main`: build a blank `rows × cols`
`next_board`, then for each `(i, row)` and `(j, item)` of the pre-tick
board write `tickCell`'s value, and-ing `is_over` (initially `True`)
with each cell's flag.  Returns the new board contents and the final
`is_over`. -/
def tickFill (g : Board) : List (List Cell) × Bool :=
  let blank := List.replicate g.rows (List.replicate g.cols dead)
  g.board.enum.foldl
    (fun acc pr =>
      pr.2.enum.foldl
        (fun acc2 qr =>
          let r := tickCell g pr.1 qr.1 qr.2
          (setCell2 acc2.1 pr.1 qr.1 r.1, acc2.2 && r.2))
        acc)
    (blank, true)

/-- One iteration of the `while not game.is_over` loop, minus rendering
and sleeping: the resulting board (`game.board = game.next_board.copy()`)
and the `is_over` flag.  `changed` in the spec's `SimulationResult` is
the negation of the flag. -/
def tick (g : Board) : Board × Bool :=
  let r := tickFill g
  (⟨g.rows, g.cols, r.1⟩, r.2)

/-- Shape invariant established by `Board.__init__`: the cell array is
exactly `rows` rows of `cols` cells. -/
def Board.WF (g : Board) : Prop :=
  g.board.length = g.rows ∧ ∀ row ∈ g.board, row.length = g.cols

instance (g : Board) : Decidable g.WF := by
  unfold Board.WF; infer_instance

/-- The transition rule as one pure function of the old cell value and
the live-neighbor count, exactly the branch structure of the tick loop. -/
def rule (item : Cell) (n : Nat) : Cell :=
  if item = dead ∧ n = 3 then alive
  else if item = alive ∧ n ≥ 4 then dead
  else if item = alive ∧ n ≤ 1 then dead
  else item

/-- Modelled from the spec (§4.2, refinement side of the atomicity
claim): the purely functional tick — apply `rule` to every coordinate,
with the live-neighbor count taken against the pre-tick grid only. -/
def tickPure (g : Board) : List (List Cell) :=
  g.board.enum.map fun pr =>
    pr.2.enum.map fun qr => rule qr.2 (liveNeighborCount g (pr.1, qr.1))

/-- The spec's notion of an in-bounds coordinate:
`0 ≤ row < rows ∧ 0 ≤ col < cols`. -/
def inBounds (g : Board) (p : Int × Int) : Prop :=
  0 ≤ p.1 ∧ p.1 < (g.rows : Int) ∧ 0 ≤ p.2 ∧ p.2 < (g.cols : Int)

instance (g : Board) (p : Int × Int) : Decidable (inBounds g p) := by
  unfold inBounds; infer_instance

/-- The opposite compass direction, used to state neighbor symmetry. -/
def Dir.opposite : Dir → Dir
  | .nw => .se
  | .n => .s
  | .ne => .sw
  | .w => .e
  | .e => .w
  | .sw => .ne
  | .s => .n
  | .se => .nw

/-- The contribution of one direction to a neighbor list: the empty list
when the bounds check of `get_inbound_coords` fails, a singleton
otherwise. -/
def dirCell (g : Board) (a b : Int) : List (Int × Int) :=
  if a < 0 ∨ b < 0 ∨ a > (g.rows : Int) - 1 ∨ b > (g.cols : Int) - 1 then []
  else [(a, b)]

/-- Iterated generation steps: the board after `n` passes of the
simulation loop. -/
def stepN (g : Board) : Nat → Board
  | 0 => g
  | n + 1 => (tick (stepN g n)).1

example : pyIndex 3 (-1) = some 2 := by decide
example : pyIndex 3 3 = none := by decide
example : Board.init 2 2 [(0, 0)] =
    some ⟨2, 2, [[alive, dead], [dead, dead]]⟩ := by decide
example : Board.init 2 2 [(-1, 0)] =
    some ⟨2, 2, [[dead, dead], [alive, dead]]⟩ := by decide
example : Board.init 2 2 [(2, 0)] = none := by decide

/-! ### Construction lemmas -/

theorem pyIndex_none (len : Nat) (i : Int)
    (h : i < -(len : Int) ∨ (len : Int) ≤ i) : pyIndex len i = none := by
  unfold pyIndex
  split_ifs with h1 h2
  · exact absurd h (by omega)
  · exact absurd h (by omega)
  · rfl

theorem pyIndex_inrange (len : Nat) (i : Int)
    (h1 : -(len : Int) ≤ i) (h2 : i < (len : Int)) :
    pyIndex len i = some (i % (len : Int)).toNat := by
  unfold pyIndex
  split_ifs with ha hb
  · rw [Int.emod_eq_of_lt ha.1 ha.2]
  · have hmod : i % (len : Int) = i + len := by
      rw [← Int.add_mul_emod_self_left i len 1, mul_one]
      exact Int.emod_eq_of_lt (by omega) (by omega)
    rw [hmod]
  · exfalso; omega

theorem pyIndex_lt (len : Nat) (i : Int) (k : Nat)
    (h : pyIndex len i = some k) : k < len := by
  unfold pyIndex at h
  split_ifs at h with h1 h2
  · injection h with h; omega
  · injection h with h; omega

theorem emod_toNat_lt (i : Int) (len : Nat)
    (h1 : -(len : Int) ≤ i) (h2 : i < (len : Int)) :
    (i % (len : Int)).toNat < len := by
  have hpos : 0 < (len : Int) := by omega
  have ha := Int.emod_nonneg i (by omega : (len : Int) ≠ 0)
  have hb := Int.emod_lt_of_pos i hpos
  omega

theorem getD_set_general (l : List α) (k m : Nat) (v d : α) :
    (l.set k v).getD m d =
      if k = m ∧ k < l.length then v else l.getD m d := by
  by_cases hm : m < l.length
  · rw [List.getD_eq_getElem _ _ (by simpa using hm), List.getElem_set]
    split_ifs with h1 h2 h3
    · rfl
    · exact absurd ⟨h1, h1 ▸ hm⟩ h2
    · exact absurd h3.1 h1
    · exact (List.getD_eq_getElem _ _ hm).symm
  · have hm2 : ¬ m < (l.set k v).length := by simpa using hm
    rw [List.getD_eq_default _ _ (by omega), List.getD_eq_default _ _ (by omega)]
    have : ¬ (k = m ∧ k < l.length) := by omega
    rw [if_neg this]

theorem setAlive_inrange (b : List (List Cell)) (i j : Int) (rows cols : Nat)
    (hlen : b.length = rows) (hrl : ∀ r ∈ b, r.length = cols)
    (hi1 : -(rows : Int) ≤ i) (hi2 : i < (rows : Int))
    (hj1 : -(cols : Int) ≤ j) (hj2 : j < (cols : Int)) :
    setAlive b i j =
      some (b.set (i % (rows : Int)).toNat
        ((b.getD (i % (rows : Int)).toNat []).set (j % (cols : Int)).toNat alive)) := by
  have hidx : (i % (rows : Int)).toNat < b.length := by
    rw [hlen]; exact emod_toNat_lt i rows hi1 hi2
  have hrow : (b.getD (i % (rows : Int)).toNat []).length = cols := by
    rw [List.getD_eq_getElem _ _ hidx]
    exact hrl _ (List.getElem_mem hidx)
  unfold setAlive
  rw [hlen, pyIndex_inrange rows i hi1 hi2]
  simp only [Option.bind_eq_bind, Option.some_bind]
  rw [hrow, pyIndex_inrange cols j hj1 hj2]
  rfl

theorem setAlive_far_out (b : List (List Cell)) (i j : Int) (rows cols : Nat)
    (hlen : b.length = rows) (hrl : ∀ r ∈ b, r.length = cols)
    (h : i < -(rows : Int) ∨ (rows : Int) ≤ i ∨ j < -(cols : Int) ∨ (cols : Int) ≤ j) :
    setAlive b i j = none := by
  unfold setAlive
  rcases h with h | h | h | h
  · rw [hlen, pyIndex_none rows i (Or.inl h)]; rfl
  · rw [hlen, pyIndex_none rows i (Or.inr h)]; rfl
  all_goals
    rw [hlen]
    by_cases hi : -(rows : Int) ≤ i ∧ i < (rows : Int)
    · have hidx : (i % (rows : Int)).toNat < b.length := by
        rw [hlen]; exact emod_toNat_lt i rows hi.1 hi.2
      have hrow : (b.getD (i % (rows : Int)).toNat []).length = cols := by
        rw [List.getD_eq_getElem _ _ hidx]
        exact hrl _ (List.getElem_mem hidx)
      rw [pyIndex_inrange rows i hi.1 hi.2]
      simp only [Option.bind_eq_bind, Option.some_bind]
      rw [hrow, pyIndex_none cols j (by omega)]
      rfl
    · rw [pyIndex_none rows i (by omega)]; rfl

theorem setAlive_shape (b bn : List (List Cell)) (i j : Int) (rows cols : Nat)
    (hlen : b.length = rows) (hrl : ∀ r ∈ b, r.length = cols)
    (h : setAlive b i j = some bn) :
    bn.length = rows ∧ ∀ r ∈ bn, r.length = cols := by
  unfold setAlive at h
  rcases hpi : pyIndex b.length i with _ | ki
  · rw [hpi] at h; exact Option.noConfusion h
  · rw [hpi] at h
    simp only [Option.bind_eq_bind, Option.some_bind] at h
    rcases hpj : pyIndex (b.getD ki []).length j with _ | kj
    · rw [hpj] at h; exact Option.noConfusion h
    · rw [hpj] at h
      simp only [Option.some_bind, Option.some.injEq, pure] at h
      subst h
      refine ⟨by simpa using hlen, ?_⟩
      intro r hr
      rcases List.mem_or_eq_of_mem_set hr with hr | hr
      · exact hrl r hr
      · subst hr
        rw [List.length_set]
        have hk : ki < b.length := pyIndex_lt _ _ _ hpi
        rw [List.getD_eq_getElem _ _ hk]
        exact hrl _ (List.getElem_mem hk)

theorem setAlive_keeps_alive (b bn : List (List Cell)) (i j : Int) (a c : Nat)
    (h : setAlive b i j = some bn)
    (hal : (b.getD a []).getD c dead = alive) :
    (bn.getD a []).getD c dead = alive := by
  unfold setAlive at h
  rcases hpi : pyIndex b.length i with _ | ki
  · rw [hpi] at h; exact Option.noConfusion h
  · rw [hpi] at h
    simp only [Option.bind_eq_bind, Option.some_bind] at h
    rcases hpj : pyIndex (b.getD ki []).length j with _ | kj
    · rw [hpj] at h; exact Option.noConfusion h
    · rw [hpj] at h
      simp only [Option.some_bind, Option.some.injEq, pure] at h
      subst h
      rw [getD_set_general]
      split_ifs with hk
      · obtain ⟨rfl, hklt⟩ := hk
        rw [getD_set_general]
        split_ifs with hc
        · rfl
        · exact hal
      · exact hal

theorem seedFold_shape (seed : List (Int × Int)) :
    ∀ (b bn : List (List Cell)) (rows cols : Nat),
    b.length = rows → (∀ r ∈ b, r.length = cols) →
    seed.foldlM (fun b p => setAlive b p.1 p.2) b = some bn →
    bn.length = rows ∧ ∀ r ∈ bn, r.length = cols := by
  induction seed with
  | nil =>
    intro b bn rows cols h1 h2 h
    rw [List.foldlM_nil] at h
    injection h with h
    subst h
    exact ⟨h1, h2⟩
  | cons q seed ih =>
    intro b bn rows cols h1 h2 h
    rw [List.foldlM_cons] at h
    rcases hq : setAlive b q.1 q.2 with _ | b1
    · rw [hq] at h; exact Option.noConfusion h
    · rw [hq] at h
      simp only [Option.bind_eq_bind, Option.some_bind] at h
      obtain ⟨hb1, hb2⟩ := setAlive_shape b b1 q.1 q.2 rows cols h1 h2 hq
      exact ih b1 bn rows cols hb1 hb2 h

theorem seedFold_keeps_alive (seed : List (Int × Int)) :
    ∀ (b bn : List (List Cell)) (a c : Nat),
    seed.foldlM (fun b p => setAlive b p.1 p.2) b = some bn →
    (b.getD a []).getD c dead = alive →
    (bn.getD a []).getD c dead = alive := by
  induction seed with
  | nil =>
    intro b bn a c h hal
    rw [List.foldlM_nil] at h
    injection h with h
    subst h
    exact hal
  | cons q seed ih =>
    intro b bn a c h hal
    rw [List.foldlM_cons] at h
    rcases hq : setAlive b q.1 q.2 with _ | b1
    · rw [hq] at h; exact Option.noConfusion h
    · rw [hq] at h
      simp only [Option.bind_eq_bind, Option.some_bind] at h
      exact ih b1 bn a c h (setAlive_keeps_alive b b1 q.1 q.2 a c hq hal)

theorem seedFold_none_of_far_out (seed : List (Int × Int)) :
    ∀ (b : List (List Cell)) (rows cols : Nat),
    b.length = rows → (∀ r ∈ b, r.length = cols) →
    (∃ p ∈ seed, p.1 < -(rows : Int) ∨ (rows : Int) ≤ p.1 ∨
      p.2 < -(cols : Int) ∨ (cols : Int) ≤ p.2) →
    seed.foldlM (fun b p => setAlive b p.1 p.2) b = none := by
  induction seed with
  | nil =>
    intro b rows cols h1 h2 hex
    obtain ⟨p, hp, -⟩ := hex
    exact absurd hp (List.not_mem_nil p)
  | cons q seed ih =>
    intro b rows cols h1 h2 hex
    rw [List.foldlM_cons]
    by_cases hq : q.1 < -(rows : Int) ∨ (rows : Int) ≤ q.1 ∨
        q.2 < -(cols : Int) ∨ (cols : Int) ≤ q.2
    · rw [setAlive_far_out b q.1 q.2 rows cols h1 h2 hq]
      rfl
    · have hqin : -(rows : Int) ≤ q.1 ∧ q.1 < (rows : Int) ∧
          -(cols : Int) ≤ q.2 ∧ q.2 < (cols : Int) := by omega
      rw [setAlive_inrange b q.1 q.2 rows cols h1 h2
        hqin.1 hqin.2.1 hqin.2.2.1 hqin.2.2.2]
      simp only [Option.bind_eq_bind, Option.some_bind]
      obtain ⟨hb1, hb2⟩ := setAlive_shape b _ q.1 q.2 rows cols h1 h2
        (setAlive_inrange b q.1 q.2 rows cols h1 h2
          hqin.1 hqin.2.1 hqin.2.2.1 hqin.2.2.2)
      apply ih _ rows cols hb1 hb2
      obtain ⟨p, hp, hbad⟩ := hex
      rcases List.mem_cons.1 hp with hp | hp
      · subst hp; exact absurd hbad hq
      · exact ⟨p, hp, hbad⟩

theorem seedFold_some_of_inrange (seed : List (Int × Int)) :
    ∀ (b : List (List Cell)) (rows cols : Nat),
    b.length = rows → (∀ r ∈ b, r.length = cols) →
    (∀ p ∈ seed, -(rows : Int) ≤ p.1 ∧ p.1 < (rows : Int) ∧
      -(cols : Int) ≤ p.2 ∧ p.2 < (cols : Int)) →
    ∃ bn, seed.foldlM (fun b p => setAlive b p.1 p.2) b = some bn := by
  induction seed with
  | nil =>
    intro b rows cols h1 h2 hall
    exact ⟨b, rfl⟩
  | cons q seed ih =>
    intro b rows cols h1 h2 hall
    rw [List.foldlM_cons]
    obtain ⟨hq1, hq2, hq3, hq4⟩ := hall q (List.mem_cons_self q seed)
    rw [setAlive_inrange b q.1 q.2 rows cols h1 h2 hq1 hq2 hq3 hq4]
    simp only [Option.bind_eq_bind, Option.some_bind]
    obtain ⟨hb1, hb2⟩ := setAlive_shape b _ q.1 q.2 rows cols h1 h2
      (setAlive_inrange b q.1 q.2 rows cols h1 h2 hq1 hq2 hq3 hq4)
    exact ih _ rows cols hb1 hb2 (fun p hp => hall p (List.mem_cons_of_mem q hp))

/-! ### Neighborhood lemmas -/

theorem mem_directionOrder (d : Dir) : d ∈ directionOrder := by
  cases d <;> simp [directionOrder]

theorem opposite_offset (d : Dir) :
    DIRECTIONAL_MAP d.opposite =
      (-(DIRECTIONAL_MAP d).1, -(DIRECTIONAL_MAP d).2) := by
  cases d <;> rfl

theorem mem_neighborsOf (g : Board) (c p : Int × Int) :
    p ∈ neighborsOf g c ↔
      (∃ d : Dir, p.1 = c.1 + (DIRECTIONAL_MAP d).1 ∧
        p.2 = c.2 + (DIRECTIONAL_MAP d).2) ∧
      0 ≤ p.1 ∧ 0 ≤ p.2 ∧ p.1 ≤ (g.rows : Int) - 1 ∧ p.2 ≤ (g.cols : Int) - 1 := by
  unfold neighborsOf
  rw [List.mem_filterMap]
  constructor
  · rintro ⟨d, -, hd⟩
    unfold Board.get_inbound_coords at hd
    dsimp only at hd
    split_ifs at hd with h
    injection hd with hd
    subst hd
    exact ⟨⟨d, rfl, rfl⟩, by omega⟩
  · rintro ⟨⟨d, h1, h2⟩, hb⟩
    refine ⟨d, mem_directionOrder d, ?_⟩
    unfold Board.get_inbound_coords
    dsimp only
    obtain ⟨p1, p2⟩ := p
    dsimp only at h1 h2 hb
    rw [if_neg (by omega)]
    subst h1
    subst h2
    rfl

theorem filterMap_eq_foldr_toList (f : α → Option β) (l : List α) :
    l.filterMap f = l.foldr (fun a acc => (f a).toList ++ acc) [] := by
  induction l with
  | nil => rfl
  | cons a l ih =>
    rw [List.filterMap_cons, List.foldr_cons, ← ih]
    cases f a <;> rfl

theorem toList_get_inbound_coords (g : Board) (c : Int × Int) (d : Dir) :
    (g.get_inbound_coords c d).toList =
      dirCell g (c.1 + (DIRECTIONAL_MAP d).1) (c.2 + (DIRECTIONAL_MAP d).2) := by
  unfold Board.get_inbound_coords dirCell
  dsimp only
  split_ifs <;> rfl

theorem neighborsOf_eval (g : Board) (c : Int × Int) :
    neighborsOf g c =
      dirCell g (c.1 + -1) (c.2 + -1) ++
      (dirCell g (c.1 + -1) (c.2 + 0) ++
      (dirCell g (c.1 + -1) (c.2 + 1) ++
      (dirCell g (c.1 + 0) (c.2 + -1) ++
      (dirCell g (c.1 + 0) (c.2 + 1) ++
      (dirCell g (c.1 + 1) (c.2 + -1) ++
      (dirCell g (c.1 + 1) (c.2 + 0) ++
      dirCell g (c.1 + 1) (c.2 + 1))))))) := by
  unfold neighborsOf
  rw [filterMap_eq_foldr_toList]
  simp only [directionOrder, List.foldr_cons, List.foldr_nil,
    toList_get_inbound_coords, DIRECTIONAL_MAP, List.append_nil]

theorem dirCell_length (g : Board) (a b : Int) :
    (dirCell g a b).length =
      if a < 0 ∨ b < 0 ∨ a > (g.rows : Int) - 1 ∨ b > (g.cols : Int) - 1 then 0
      else 1 := by
  unfold dirCell
  split_ifs <;> rfl

theorem filterMap_sublist_map (f : α → Option β) (m : α → β)
    (h : ∀ a b, f a = some b → b = m a) (l : List α) :
    (l.filterMap f).Sublist (l.map m) := by
  induction l with
  | nil => exact List.Sublist.refl []
  | cons a l ih =>
    rw [List.filterMap_cons, List.map_cons]
    rcases hf : f a with _ | b
    · exact ih.cons (m a)
    · rw [h a b hf]
      exact ih.cons₂ (m a)

theorem neighborsOf_sublist (g : Board) (c : Int × Int) :
    (neighborsOf g c).Sublist
      (directionOrder.map fun d =>
        (c.1 + (DIRECTIONAL_MAP d).1, c.2 + (DIRECTIONAL_MAP d).2)) := by
  unfold neighborsOf
  apply filterMap_sublist_map
  intro d p hp
  unfold Board.get_inbound_coords at hp
  dsimp only at hp
  split_ifs at hp with h
  injection hp with hp
  exact hp.symm

/-! ### Tick lemmas -/

theorem take_set_succ (l : List α) (k : Nat) (v : α) (h : k < l.length) :
    (l.set k v).take (k + 1) = l.take k ++ [v] := by
  induction l generalizing k with
  | nil => simp at h
  | cons a l ih =>
    cases k with
    | zero => rfl
    | succ k =>
      rw [List.set_cons_succ, List.take_succ_cons, List.take_succ_cons,
        ih k (by simpa using h), List.cons_append]

theorem set_getD_refl (l : List α) (k : Nat) (d : α) (h : k < l.length) :
    l.set k (l.getD k d) = l := by
  apply List.ext_getElem (by simp)
  intro n h1 h2
  rw [List.getElem_set]
  split_ifs with he
  · subst he; rw [List.getD_eq_getElem _ _ h]
  · rfl

theorem enum_eq_enumFrom_zero (l : List α) : l.enum = l.enumFrom 0 := rfl

theorem row_fold (g : Board) (i : Nat) (row : List Cell) :
    ∀ (k : Nat) (r0 : List Cell), r0.length = k + row.length →
    (row.enumFrom k).foldl
      (fun r qr => r.set qr.1 (tickCell g i qr.1 qr.2).1) r0
    = r0.take k ++ (row.enumFrom k).map (fun qr => (tickCell g i qr.1 qr.2).1) := by
  induction row with
  | nil =>
    intro k r0 h
    simp only [List.length_nil, Nat.add_zero] at h
    rw [List.enumFrom_nil, List.foldl_nil, List.map_nil, List.append_nil,
      ← h, List.take_length]
  | cons a row ih =>
    intro k r0 h
    simp only [List.length_cons] at h
    rw [List.enumFrom_cons, List.foldl_cons, List.map_cons]
    dsimp only
    rw [ih (k + 1) (r0.set k (tickCell g i k a).1)
      (by rw [List.length_set]; omega)]
    rw [take_set_succ r0 k _ (by omega), List.append_assoc, List.singleton_append]

theorem inner_fst (g : Board) (i : Nat) (row : List Cell) :
    ∀ (k : Nat) (nb : List (List Cell)) (over : Bool), i < nb.length →
    ((row.enumFrom k).foldl
      (fun acc2 qr =>
        (setCell2 acc2.1 i qr.1 (tickCell g i qr.1 qr.2).1,
          acc2.2 && (tickCell g i qr.1 qr.2).2))
      (nb, over)).1
    = nb.set i ((row.enumFrom k).foldl
        (fun r qr => r.set qr.1 (tickCell g i qr.1 qr.2).1) (nb.getD i [])) := by
  induction row with
  | nil =>
    intro k nb over h
    rw [List.enumFrom_nil, List.foldl_nil, List.foldl_nil]
    exact (set_getD_refl nb i [] h).symm
  | cons a row ih =>
    intro k nb over h
    rw [List.enumFrom_cons, List.foldl_cons, List.foldl_cons]
    dsimp only
    rw [ih (k + 1) (setCell2 nb i k (tickCell g i k a).1) (over && (tickCell g i k a).2)
      (by unfold setCell2; rw [List.length_set]; exact h)]
    unfold setCell2
    rw [List.set_set]
    congr 1
    rw [getD_set_general, if_pos ⟨rfl, h⟩]


theorem outer_fold (g : Board) (rows2 : List (List Cell)) :
    ∀ (m : Nat) (nb : List (List Cell)) (over : Bool),
    (∀ r ∈ rows2, r.length = g.cols) →
    (∀ r ∈ nb, r.length = g.cols) →
    nb.length = m + rows2.length →
    ((rows2.enumFrom m).foldl
      (fun acc pr =>
        pr.2.enum.foldl
          (fun acc2 qr =>
            (setCell2 acc2.1 pr.1 qr.1 (tickCell g pr.1 qr.1 qr.2).1,
              acc2.2 && (tickCell g pr.1 qr.1 qr.2).2))
          acc)
      (nb, over)).1
    = nb.take m ++ (rows2.enumFrom m).map
        (fun pr => pr.2.enum.map (fun qr => (tickCell g pr.1 qr.1 qr.2).1)) := by
  induction rows2 with
  | nil =>
    intro m nb over h1 h2 h3
    simp only [List.length_nil, Nat.add_zero] at h3
    rw [List.enumFrom_nil, List.foldl_nil, List.map_nil, List.append_nil,
      ← h3, List.take_length]
  | cons row rows2 ih =>
    intro m nb over hrows hnb hlen
    simp only [List.length_cons] at hlen
    have hm : m < nb.length := by omega
    rw [List.enumFrom_cons, List.foldl_cons, List.map_cons]
    dsimp only
    have hrow0 : (nb.getD m []).length = 0 + row.length := by
      rw [List.getD_eq_getElem _ _ hm, Nat.zero_add]
      rw [hnb _ (List.getElem_mem hm), hrows row (List.mem_cons_self row rows2)]
    have hfst : (row.enum.foldl
        (fun acc2 qr =>
          (setCell2 acc2.1 m qr.1 (tickCell g m qr.1 qr.2).1,
            acc2.2 && (tickCell g m qr.1 qr.2).2))
        (nb, over)).1
        = nb.set m (row.enum.map fun qr => (tickCell g m qr.1 qr.2).1) := by
      rw [enum_eq_enumFrom_zero row, inner_fst g m row 0 nb over hm,
        row_fold g m row 0 (nb.getD m []) hrow0,
        List.take_zero, List.nil_append]
    have hsplit : (row.enum.foldl
        (fun acc2 qr =>
          (setCell2 acc2.1 m qr.1 (tickCell g m qr.1 qr.2).1,
            acc2.2 && (tickCell g m qr.1 qr.2).2))
        (nb, over))
        = (nb.set m (row.enum.map fun qr => (tickCell g m qr.1 qr.2).1),
          (row.enum.foldl
            (fun acc2 qr =>
              (setCell2 acc2.1 m qr.1 (tickCell g m qr.1 qr.2).1,
                acc2.2 && (tickCell g m qr.1 qr.2).2))
            (nb, over)).2) := by
      rw [← hfst]
    rw [hsplit]
    rw [ih (m + 1) (nb.set m (row.enum.map fun qr => (tickCell g m qr.1 qr.2).1))
      _ (fun r hr => hrows r (List.mem_cons_of_mem row hr)) ?hmem ?hlen2]
    case hmem =>
      intro r hr
      rcases List.mem_or_eq_of_mem_set hr with hr | hr
      · exact hnb r hr
      · subst hr
        rw [List.length_map, List.enum_length]
        exact hrows row (List.mem_cons_self row rows2)
    case hlen2 =>
      rw [List.length_set]; omega
    rw [take_set_succ nb m _ hm, List.append_assoc, List.singleton_append]

theorem foldl_pair_snd (step : σ × Bool → α → σ × Bool) (p : α → Bool)
    (h : ∀ acc a, (step acc a).2 = (acc.2 && p a)) :
    ∀ (l : List α) (s : σ × Bool), (l.foldl step s).2 = (s.2 && l.all p) := by
  intro l
  induction l with
  | nil => intro s; rw [List.foldl_nil, List.all_nil, Bool.and_true]
  | cons a l ih =>
    intro s
    rw [List.foldl_cons, List.all_cons, ih (step s a), h s a, Bool.and_assoc]

theorem tickFill_fst (g : Board) (hWF : g.WF) :
    (tickFill g).1 = g.board.enum.map
      (fun pr => pr.2.enum.map (fun qr => (tickCell g pr.1 qr.1 qr.2).1)) := by
  unfold tickFill
  dsimp only
  rw [enum_eq_enumFrom_zero g.board]
  rw [outer_fold g g.board 0 (List.replicate g.rows (List.replicate g.cols dead))
    true hWF.2 ?hblank ?hlen]
  case hblank =>
    intro r hr
    rw [List.eq_of_mem_replicate hr, List.length_replicate]
  case hlen =>
    rw [List.length_replicate, Nat.zero_add, hWF.1]
  rw [List.take_zero, List.nil_append]

theorem tickFill_snd (g : Board) :
    (tickFill g).2 = g.board.enum.all
      (fun pr => pr.2.enum.all (fun qr => (tickCell g pr.1 qr.1 qr.2).2)) := by
  unfold tickFill
  dsimp only
  refine Eq.trans (foldl_pair_snd _ _ ?_ _ _) (Bool.true_and _)
  intro acc pr
  exact foldl_pair_snd _ _ (fun acc2 qr => rfl) pr.2.enum acc

theorem tick_board (g : Board) : (tick g).1.board = (tickFill g).1 := rfl

theorem tick_snd (g : Board) : (tick g).2 = (tickFill g).2 := rfl

theorem tickCell_fst (g : Board) (i j : Int) (item : Cell) :
    (tickCell g i j item).1 = rule item (numNeighbors g (i, j)) := by
  unfold tickCell rule
  dsimp only
  split_ifs <;> rfl

theorem numNeighbors_eq (g : Board) (c : Int × Int) :
    numNeighbors g c = liveNeighborCount g c := by
  unfold numNeighbors liveNeighborCount Board.get_live_neighbors
  rw [List.filter_filter]
  simp only [Bool.and_self]

theorem tickCell_snd_iff (g : Board) (i j : Int) (item : Cell) :
    (tickCell g i j item).2 = true ↔ (tickCell g i j item).1 = item := by
  unfold tickCell
  dsimp only
  split_ifs with h1 h2 h3
  · rw [h1.1]; simp
  · rw [h2.1]; simp
  · rw [h3.1]; simp
  · simp

theorem cellAt_nat (g : Board) (i j : Nat) :
    g.cellAt ((i : Int), (j : Int)) = (g.board.getD i []).getD j dead := by
  unfold Board.cellAt pyGetD
  dsimp only
  rw [Int.toNat_natCast, Int.toNat_natCast]

theorem tick_board_pure (g : Board) (hWF : g.WF) :
    (tick g).1.board = tickPure g := by
  rw [tick_board, tickFill_fst g hWF]
  unfold tickPure
  simp only [tickCell_fst, numNeighbors_eq]

theorem codeMap_getD (g : Board) (i : Nat) (hib : i < g.board.length) :
    (g.board.enum.map (fun pr => pr.2.enum.map
      (fun qr => (tickCell g pr.1 qr.1 qr.2).1))).getD i []
    = (g.board[i]).enum.map (fun qr => (tickCell g i qr.1 qr.2).1) := by
  rw [List.getD_eq_getElem _ _
    (by rw [List.length_map, List.enum_length]; exact hib),
    List.getElem_map, List.getElem_enum]

theorem rowMap_getD (g : Board) (i : Nat) (row : List Cell) (j : Nat)
    (hjb : j < row.length) :
    (row.enum.map (fun qr => (tickCell g i qr.1 qr.2).1)).getD j dead
    = (tickCell g i j row[j]).1 := by
  rw [List.getD_eq_getElem _ _
    (by rw [List.length_map, List.enum_length]; exact hjb),
    List.getElem_map, List.getElem_enum]

theorem pureMap_getD (g : Board) (i : Nat) (hib : i < g.board.length) :
    (tickPure g).getD i []
    = (g.board[i]).enum.map
      (fun qr => rule qr.2 (liveNeighborCount g (i, qr.1))) := by
  unfold tickPure
  rw [List.getD_eq_getElem _ _
    (by rw [List.length_map, List.enum_length]; exact hib),
    List.getElem_map, List.getElem_enum]

theorem pureRow_getD (g : Board) (i : Nat) (row : List Cell) (j : Nat)
    (hjb : j < row.length) :
    (row.enum.map (fun qr => rule qr.2 (liveNeighborCount g (i, qr.1)))).getD j dead
    = rule row[j] (liveNeighborCount g (i, j)) := by
  rw [List.getD_eq_getElem _ _
    (by rw [List.length_map, List.enum_length]; exact hjb),
    List.getElem_map, List.getElem_enum]

theorem tick_over_iff_pointwise (g : Board) :
    (tick g).2 = true ↔ ∀ (i : Nat) (hib : i < g.board.length)
      (j : Nat) (hjb : j < (g.board[i]).length),
      (tickCell g i j (g.board[i][j])).2 = true := by
  rw [tick_snd, tickFill_snd]
  simp only [List.all_eq_true, List.forall_mem_enum]

theorem tick_board_eq_iff_pointwise (g : Board) (hWF : g.WF) :
    ((tick g).1.board = g.board) ↔ ∀ (i : Nat) (hib : i < g.board.length)
      (j : Nat) (hjb : j < (g.board[i]).length),
      (tickCell g i j (g.board[i][j])).1 = g.board[i][j] := by
  constructor
  · intro h i hib j hjb
    have h2 := congrArg (fun l => (l.getD i []).getD j dead) h
    dsimp only at h2
    rw [tick_board, tickFill_fst g hWF, codeMap_getD g i hib,
      rowMap_getD g i _ j hjb, List.getD_eq_getElem _ _ hib,
      List.getD_eq_getElem _ _ hjb] at h2
    exact h2
  · intro h
    rw [tick_board, tickFill_fst g hWF]
    apply List.ext_getElem (by rw [List.length_map, List.enum_length])
    intro n h1 h2
    rw [List.getElem_map, List.getElem_enum]
    dsimp only
    apply List.ext_getElem (by rw [List.length_map, List.enum_length])
    intro m hm1 hm2
    rw [List.getElem_map, List.getElem_enum]
    exact h n h2 m hm2

theorem tick_over_iff_board (g : Board) (hWF : g.WF) :
    (tick g).2 = true ↔ (tick g).1.board = g.board := by
  rw [tick_over_iff_pointwise, tick_board_eq_iff_pointwise g hWF]
  constructor
  · intro h i hib j hjb
    exact (tickCell_snd_iff g i j _).mp (h i hib j hjb)
  · intro h i hib j hjb
    exact (tickCell_snd_iff g i j _).mpr (h i hib j hjb)

theorem setCell2_shape (b : List (List Cell)) (i j : Nat) (v : Cell)
    (rows cols : Nat) (h1 : b.length = rows) (h2 : ∀ r ∈ b, r.length = cols) :
    (setCell2 b i j v).length = rows ∧ ∀ r ∈ setCell2 b i j v, r.length = cols := by
  unfold setCell2
  by_cases hi : i < b.length
  · refine ⟨by rw [List.length_set]; exact h1, ?_⟩
    intro r hr
    rcases List.mem_or_eq_of_mem_set hr with hr | hr
    · exact h2 r hr
    · subst hr
      rw [List.length_set, List.getD_eq_getElem _ _ hi]
      exact h2 _ (List.getElem_mem hi)
  · rw [List.set_eq_of_length_le (by omega)]
    exact ⟨h1, h2⟩

theorem foldl_preserves (P : β → Prop) (step : β → γ → β)
    (h : ∀ s a, P s → P (step s a)) :
    ∀ (l : List γ) (s : β), P s → P (l.foldl step s) := by
  intro l
  induction l with
  | nil => intro s hs; exact hs
  | cons a l ih =>
    intro s hs
    rw [List.foldl_cons]
    exact ih _ (h s a hs)

theorem tickFill_shape (g : Board) :
    (tickFill g).1.length = g.rows ∧ ∀ r ∈ (tickFill g).1, r.length = g.cols := by
  unfold tickFill
  dsimp only
  refine foldl_preserves
    (fun acc : List (List Cell) × Bool =>
      acc.1.length = g.rows ∧ ∀ r ∈ acc.1, r.length = g.cols) _ ?_ _ _ ?_
  · intro s pr hs
    refine foldl_preserves
      (fun acc : List (List Cell) × Bool =>
        acc.1.length = g.rows ∧ ∀ r ∈ acc.1, r.length = g.cols) _ ?_ _ _ hs
    intro s2 qr hs2
    exact setCell2_shape s2.1 pr.1 qr.1 _ g.rows g.cols hs2.1 hs2.2
  · refine ⟨List.length_replicate _ _, ?_⟩
    intro r hr
    rw [List.eq_of_mem_replicate hr]
    exact List.length_replicate _ _

theorem tick_preserves_WF (g : Board) :
    (tick g).1.WF ∧ (tick g).1.rows = g.rows ∧ (tick g).1.cols = g.cols := by
  have h := tickFill_shape g
  exact ⟨⟨h.1, h.2⟩, rfl, rfl⟩

theorem seedFold_marks (seed : List (Int × Int)) :
    ∀ (b bn : List (List Cell)) (rows cols : Nat),
    b.length = rows → (∀ r ∈ b, r.length = cols) →
    seed.foldlM (fun b p => setAlive b p.1 p.2) b = some bn →
    ∀ (i j : Int), (i, j) ∈ seed →
    -(rows : Int) ≤ i → i < (rows : Int) → -(cols : Int) ≤ j → j < (cols : Int) →
    (bn.getD (i % (rows : Int)).toNat []).getD (j % (cols : Int)).toNat dead
      = alive := by
  induction seed with
  | nil =>
    intro b bn rows cols h1 h2 h i j hmem
    exact absurd hmem (List.not_mem_nil (i, j))
  | cons q seed ih =>
    intro b bn rows cols h1 h2 h i j hmem hi1 hi2 hj1 hj2
    rw [List.foldlM_cons] at h
    rcases List.mem_cons.1 hmem with hq | hq
    · subst hq
      rw [setAlive_inrange b i j rows cols h1 h2 hi1 hi2 hj1 hj2] at h
      simp only [Option.bind_eq_bind, Option.some_bind] at h
      have hidx : (i % (rows : Int)).toNat < b.length := by
        rw [h1]; exact emod_toNat_lt i rows hi1 hi2
      have hrow : (b.getD (i % (rows : Int)).toNat []).length = cols := by
        rw [List.getD_eq_getElem _ _ hidx]
        exact h2 _ (List.getElem_mem hidx)
      apply seedFold_keeps_alive seed _ bn _ _ h
      rw [getD_set_general, if_pos ⟨rfl, hidx⟩, getD_set_general,
        if_pos ⟨rfl, by rw [hrow]; exact emod_toNat_lt j cols hj1 hj2⟩]
    · rcases hsa : setAlive b q.1 q.2 with _ | b1
      · rw [hsa] at h; exact Option.noConfusion h
      · rw [hsa] at h
        simp only [Option.bind_eq_bind, Option.some_bind] at h
        obtain ⟨hb1, hb2⟩ := setAlive_shape b b1 q.1 q.2 rows cols h1 h2 hsa
        exact ih b1 bn rows cols hb1 hb2 h i j hq hi1 hi2 hj1 hj2

/-! ### Claim theorems -/

/-- C1: one generation step maps every in-bounds cell exactly per the
transition rule applied to the pre-tick grid with
`n = liveNeighborCount(coord)`: Dead with `n = 3` becomes Alive, Alive
with `n ≥ 4` or `n ≤ 1` becomes Dead, any other cell is unchanged. -/
theorem tick_cell_follows_rule (g : Board) (hWF : g.WF) (i j : Nat)
    (hi : i < g.rows) (hj : j < g.cols) :
    (tick g).1.cellAt ((i : Int), (j : Int)) =
      rule (g.cellAt ((i : Int), (j : Int)))
        (liveNeighborCount g ((i : Int), (j : Int))) := by
  have hib : i < g.board.length := by rw [hWF.1]; exact hi
  have hjb : j < (g.board[i]).length := by
    rw [hWF.2 _ (List.getElem_mem hib)]; exact hj
  rw [cellAt_nat, cellAt_nat, tick_board_pure g hWF,
    pureMap_getD g i hib, pureRow_getD g i _ j hjb,
    List.getD_eq_getElem _ _ hib, List.getD_eq_getElem _ _ hjb]

/-- Witness for C1 at a concrete board and coordinate. -/
theorem tick_cell_follows_rule_witness :
    (tick ⟨2, 2, [[alive, dead], [dead, dead]]⟩).1.cellAt ((0 : Int), (0 : Int)) =
      rule (Board.cellAt ⟨2, 2, [[alive, dead], [dead, dead]]⟩ ((0 : Int), (0 : Int)))
        (liveNeighborCount ⟨2, 2, [[alive, dead], [dead, dead]]⟩
          ((0 : Int), (0 : Int))) :=
  tick_cell_follows_rule ⟨2, 2, [[alive, dead], [dead, dead]]⟩
    (by decide) 0 0 (by decide) (by decide)

/-- C2: the tick reports `is_over = true` (`changed = false`) exactly
when the board it produces equals the pre-tick board cell for cell. -/
theorem tick_changed_iff_fixed_point (g : Board) (hWF : g.WF) :
    (tick g).2 = true ↔ (tick g).1.board = g.board :=
  tick_over_iff_board g hWF

/-- Witness for C2 at a concrete board. -/
theorem tick_changed_iff_fixed_point_witness :
    (tick ⟨2, 2, [[alive, dead], [dead, dead]]⟩).2 = true ↔
      (tick ⟨2, 2, [[alive, dead], [dead, dead]]⟩).1.board =
        [[alive, dead], [dead, dead]] :=
  tick_changed_iff_fixed_point ⟨2, 2, [[alive, dead], [dead, dead]]⟩ (by decide)

/-- C3: the imperative double-buffered tick (blank `next_board`, per-cell
fill, wholesale swap) produces exactly the pure per-cell map of the
transition rule over the pre-tick grid. -/
theorem tick_imperative_eq_pure (g : Board) (hWF : g.WF) :
    (tick g).1.board = tickPure g :=
  tick_board_pure g hWF

/-- Witness for C3 at a concrete board. -/
theorem tick_imperative_eq_pure_witness :
    (tick ⟨2, 2, [[alive, dead], [dead, dead]]⟩).1.board =
      tickPure ⟨2, 2, [[alive, dead], [dead, dead]]⟩ :=
  tick_imperative_eq_pure ⟨2, 2, [[alive, dead], [dead, dead]]⟩ (by decide)

/-- C4 counterexample: on a 1×1 grid the (corner) cell `(0,0)` has zero
in-bounds neighbors, refuting the claim that every grid yields between 3
and 8 neighbors with 3 at a corner. -/
theorem neighborsOf_one_by_one_empty :
    (neighborsOf ⟨1, 1, [[dead]]⟩ ((0 : Int), (0 : Int))).length = 0 ∧
    ¬ 3 ≤ (neighborsOf ⟨1, 1, [[dead]]⟩ ((0 : Int), (0 : Int))).length := by
  decide

set_option maxHeartbeats 3200000 in
/-- C4 (amended with `rows ≥ 2` and `cols ≥ 2`): `neighborsOf` returns
only in-bounds coordinates, as a subsequence of the full NW..SE offset
list (fixed compass order, no wraparound), with between 3 and 8
elements: 8 interior, 3 corner, 5 non-corner edge. -/
theorem neighborsOf_spec (g : Board) (i j : Int)
    (hr : 2 ≤ g.rows) (hc : 2 ≤ g.cols) (hij : inBounds g (i, j)) :
    (∀ p ∈ neighborsOf g (i, j), inBounds g p) ∧
    (neighborsOf g (i, j)).Sublist
      (directionOrder.map fun d =>
        (i + (DIRECTIONAL_MAP d).1, j + (DIRECTIONAL_MAP d).2)) ∧
    3 ≤ (neighborsOf g (i, j)).length ∧
    (neighborsOf g (i, j)).length ≤ 8 ∧
    ((0 < i ∧ i < (g.rows : Int) - 1 ∧ 0 < j ∧ j < (g.cols : Int) - 1) →
      (neighborsOf g (i, j)).length = 8) ∧
    (((i = 0 ∨ i = (g.rows : Int) - 1) ∧ (j = 0 ∨ j = (g.cols : Int) - 1)) →
      (neighborsOf g (i, j)).length = 3) ∧
    ((¬(0 < i ∧ i < (g.rows : Int) - 1 ∧ 0 < j ∧ j < (g.cols : Int) - 1) ∧
      ¬((i = 0 ∨ i = (g.rows : Int) - 1) ∧ (j = 0 ∨ j = (g.cols : Int) - 1))) →
      (neighborsOf g (i, j)).length = 5) := by
  unfold inBounds at hij
  obtain ⟨hi0, hi1, hj0, hj1⟩ := hij
  dsimp only at hi0 hi1 hj0 hj1
  refine ⟨?_, neighborsOf_sublist g (i, j), ?_, ?_, ?_, ?_, ?_⟩
  · intro p hp
    obtain ⟨-, hb⟩ := (mem_neighborsOf g (i, j) p).mp hp
    unfold inBounds
    omega
  · rw [neighborsOf_eval]
    simp only [List.length_append, dirCell_length]
    split_ifs <;> omega
  · rw [neighborsOf_eval]
    simp only [List.length_append, dirCell_length]
    split_ifs <;> omega
  · intro h
    rw [neighborsOf_eval]
    simp only [List.length_append, dirCell_length]
    split_ifs <;> omega
  · intro h
    rw [neighborsOf_eval]
    simp only [List.length_append, dirCell_length]
    split_ifs <;> omega
  · intro h
    rw [neighborsOf_eval]
    simp only [List.length_append, dirCell_length]
    split_ifs <;> omega

/-- Witness for the amended C4 at the corner `(0,0)` of an 8×8 grid. -/
theorem neighborsOf_spec_witness :
    (∀ p ∈ neighborsOf ⟨8, 8, []⟩ ((0 : Int), (0 : Int)),
      inBounds ⟨8, 8, []⟩ p) ∧
    (neighborsOf ⟨8, 8, []⟩ ((0 : Int), (0 : Int))).Sublist
      (directionOrder.map fun d =>
        ((0 : Int) + (DIRECTIONAL_MAP d).1, (0 : Int) + (DIRECTIONAL_MAP d).2)) ∧
    3 ≤ (neighborsOf ⟨8, 8, []⟩ ((0 : Int), (0 : Int))).length ∧
    (neighborsOf ⟨8, 8, []⟩ ((0 : Int), (0 : Int))).length ≤ 8 ∧
    ((0 < (0 : Int) ∧ (0 : Int) < ((8 : Nat) : Int) - 1 ∧ 0 < (0 : Int) ∧
        (0 : Int) < ((8 : Nat) : Int) - 1) →
      (neighborsOf ⟨8, 8, []⟩ ((0 : Int), (0 : Int))).length = 8) ∧
    ((((0 : Int) = 0 ∨ (0 : Int) = ((8 : Nat) : Int) - 1) ∧
        ((0 : Int) = 0 ∨ (0 : Int) = ((8 : Nat) : Int) - 1)) →
      (neighborsOf ⟨8, 8, []⟩ ((0 : Int), (0 : Int))).length = 3) ∧
    ((¬(0 < (0 : Int) ∧ (0 : Int) < ((8 : Nat) : Int) - 1 ∧ 0 < (0 : Int) ∧
        (0 : Int) < ((8 : Nat) : Int) - 1) ∧
      ¬(((0 : Int) = 0 ∨ (0 : Int) = ((8 : Nat) : Int) - 1) ∧
        ((0 : Int) = 0 ∨ (0 : Int) = ((8 : Nat) : Int) - 1))) →
      (neighborsOf ⟨8, 8, []⟩ ((0 : Int), (0 : Int))).length = 5) :=
  neighborsOf_spec ⟨8, 8, []⟩ 0 0 (by decide) (by decide) (by decide)

/-- C5 counterexample: the seed coordinate `(-1, 0)` lies outside
`[0,2) × [0,2)`, yet construction is not rejected — it succeeds and
silently marks the wrapped cell `(1, 0)` alive. -/
theorem init_accepts_out_of_range_coord :
    Board.init 2 2 [(-1, 0)] =
      some ⟨2, 2, [[dead, dead], [alive, dead]]⟩ := by
  decide

/-- C5 (amended): construction is rejected — with a Python `IndexError`
that does not name the coordinate — exactly when some seed coordinate
falls outside `[-rows, rows) × [-cols, cols)`; when every coordinate
lies inside that range (including coordinates outside
`[0,rows) × [0,cols)` with negative components) construction succeeds
and each seed coordinate silently marks the cell
`(i mod rows, j mod cols)` alive, wrapping negatives to the opposite
edge instead of rejecting them. -/
theorem init_rejects_only_far_out_of_range (rows cols : Nat)
    (seed : List (Int × Int)) :
    (Board.init rows cols seed = none ↔
      ∃ p ∈ seed, p.1 < -(rows : Int) ∨ (rows : Int) ≤ p.1 ∨
        p.2 < -(cols : Int) ∨ (cols : Int) ≤ p.2) ∧
    ((∀ p ∈ seed, -(rows : Int) ≤ p.1 ∧ p.1 < (rows : Int) ∧
        -(cols : Int) ≤ p.2 ∧ p.2 < (cols : Int)) →
      ∃ g, Board.init rows cols seed = some g ∧
        ∀ p ∈ seed,
          g.cellAt (p.1 % (rows : Int), p.2 % (cols : Int)) = alive) := by
  have hblank : ∀ r ∈ List.replicate rows (List.replicate cols dead),
      r.length = cols := fun r hr => by
    rw [List.eq_of_mem_replicate hr]; exact List.length_replicate _ _
  refine ⟨⟨?_, ?_⟩, ?_⟩
  · intro hnone
    by_contra hno
    push_neg at hno
    obtain ⟨bn, hbn⟩ := seedFold_some_of_inrange seed _ rows cols
      (List.length_replicate _ _) hblank
      (fun p hp => by have := hno p hp; omega)
    unfold Board.init at hnone
    dsimp only at hnone
    rw [hbn] at hnone
    simp only [Option.bind_eq_bind, Option.some_bind, pure] at hnone
    exact Option.noConfusion hnone
  · intro hex
    unfold Board.init
    dsimp only
    rw [seedFold_none_of_far_out seed _ rows cols
      (List.length_replicate _ _) hblank hex]
    rfl
  · intro hall
    obtain ⟨bn, hbn⟩ := seedFold_some_of_inrange seed _ rows cols
      (List.length_replicate _ _) hblank hall
    refine ⟨⟨rows, cols, bn⟩, ?_, ?_⟩
    · unfold Board.init
      dsimp only
      rw [hbn]
      rfl
    · intro p hp
      obtain ⟨h1, h2, h3, h4⟩ := hall p hp
      exact seedFold_marks seed _ bn rows cols
        (List.length_replicate _ _) hblank hbn p.1 p.2 hp h1 h2 h3 h4

/-- Witness for the amended C5: a row index past the end is rejected,
and a negative in-range seed is accepted. -/
theorem init_rejects_only_far_out_of_range_witness :
    Board.init 2 2 [(5, 0)] = none ∧
    (Board.init 2 2 [(-1, 0)]).isSome = true := by
  constructor
  · exact (init_rejects_only_far_out_of_range 2 2 [(5, 0)]).1.mpr (by decide)
  · obtain ⟨g, hg, -⟩ :=
      (init_rejects_only_far_out_of_range 2 2 [(-1, 0)]).2 (by decide)
    rw [hg]
    rfl

/-- C6: neighbor symmetry — if `coord2` appears in
`neighborsOf(coord1)` then `coord1` appears in `neighborsOf(coord2)`,
for in-bounds coordinates. -/
theorem neighbors_symmetric (g : Board) (c1 c2 : Int × Int)
    (h1 : inBounds g c1) (h2 : inBounds g c2)
    (hmem : c2 ∈ neighborsOf g c1) : c1 ∈ neighborsOf g c2 := by
  obtain ⟨⟨d, hd1, hd2⟩, hb⟩ := (mem_neighborsOf g c1 c2).mp hmem
  apply (mem_neighborsOf g c2 c1).mpr
  unfold inBounds at h1
  refine ⟨⟨d.opposite, ?_, ?_⟩, by omega⟩
  · rw [opposite_offset]; dsimp only; omega
  · rw [opposite_offset]; dsimp only; omega

/-- Witness for C6 at concrete coordinates on an 8×8 grid. -/
theorem neighbors_symmetric_witness :
    ((0 : Int), (0 : Int)) ∈ neighborsOf ⟨8, 8, []⟩ ((1 : Int), (1 : Int)) :=
  neighbors_symmetric ⟨8, 8, []⟩ (0, 0) (1, 1)
    (by decide) (by decide) (by decide)

/-- C7: Scenario A — on the 8×8 grid seeded with the vertical blinker
`{(0,2),(1,2),(2,2)}`, the live-neighbor counts at `(0,2)`, `(1,2)` and
`(1,1)` are 1, 2 and 3. -/
theorem scenarioA_live_neighbor_counts :
    (Board.init 8 8 [(0, 2), (1, 2), (2, 2)]).map
      (fun g => (liveNeighborCount g (0, 2), liveNeighborCount g (1, 2),
        liveNeighborCount g (1, 1))) = some (1, 2, 3) := by
  decide

/-- C8: idempotence of termination — if a tick on `g` reports no change
(`is_over = true`), a tick on the resulting grid also reports no
change. -/
theorem fixed_point_stays_fixed (g : Board) (hWF : g.WF)
    (h : (tick g).2 = true) : (tick (tick g).1).2 = true := by
  have hb := (tick_over_iff_board g hWF).mp h
  have hg : (tick g).1 = g := by
    obtain ⟨r, c, b⟩ := g
    have hmk : (tick ⟨r, c, b⟩).1 = ⟨r, c, (tickFill ⟨r, c, b⟩).1⟩ := rfl
    rw [hmk, Board.mk.injEq]
    exact ⟨rfl, rfl, hb⟩
  rw [hg]
  exact h

/-- Witness for C8: the all-dead 2×2 grid is a fixed point and stays
one. -/
theorem fixed_point_stays_fixed_witness :
    (tick (tick ⟨2, 2, [[dead, dead], [dead, dead]]⟩).1).2 = true :=
  fixed_point_stays_fixed ⟨2, 2, [[dead, dead], [dead, dead]]⟩
    (by decide) (by decide)

/-- C9: a grid built from an in-bounds seed has exactly `rows × cols`
cells, and every iterate of the generation step keeps the dimensions and
the array shape. -/
theorem dims_invariant (rows cols : Nat) (seed : List (Int × Int)) (g : Board)
    (hseed : ∀ p ∈ seed, 0 ≤ p.1 ∧ p.1 < (rows : Int) ∧
      0 ≤ p.2 ∧ p.2 < (cols : Int))
    (h : Board.init rows cols seed = some g) (n : Nat) :
    (stepN g n).rows = rows ∧ (stepN g n).cols = cols ∧
    (stepN g n).board.length = rows ∧
    ∀ row ∈ (stepN g n).board, row.length = cols := by
  have hg : g.rows = rows ∧ g.cols = cols ∧ g.board.length = rows ∧
      ∀ row ∈ g.board, row.length = cols := by
    unfold Board.init at h
    dsimp only at h
    rcases hf : seed.foldlM (fun b p => setAlive b p.1 p.2)
        (List.replicate rows (List.replicate cols dead)) with _ | b
    · rw [hf] at h; exact Option.noConfusion h
    · rw [hf] at h
      simp only [Option.bind_eq_bind, Option.some_bind, Option.some.injEq,
        pure] at h
      obtain ⟨h1, h2⟩ := seedFold_shape seed _ b rows cols
        (List.length_replicate _ _)
        (fun r hr => by
          rw [List.eq_of_mem_replicate hr]; exact List.length_replicate _ _)
        hf
      rw [← h]
      exact ⟨rfl, rfl, h1, h2⟩
  induction n with
  | zero => exact hg
  | succ n ih =>
    obtain ⟨ih1, ih2, ih3, ih4⟩ := ih
    have ht := tick_preserves_WF (stepN g n)
    have hs : stepN g (n + 1) = (tick (stepN g n)).1 := rfl
    refine ⟨?_, ?_, ?_, ?_⟩
    · rw [hs, ht.2.1, ih1]
    · rw [hs, ht.2.2, ih2]
    · rw [hs, ht.1.1, ht.2.1, ih1]
    · intro row hr
      rw [hs] at hr
      rw [ht.1.2 row hr, ht.2.2, ih2]

/-- Witness for C9 at a concrete construction and one step. -/
theorem dims_invariant_witness :
    (stepN ⟨2, 2, [[alive, dead], [dead, dead]]⟩ 1).rows = 2 ∧
    (stepN ⟨2, 2, [[alive, dead], [dead, dead]]⟩ 1).cols = 2 ∧
    (stepN ⟨2, 2, [[alive, dead], [dead, dead]]⟩ 1).board.length = 2 ∧
    ∀ row ∈ (stepN ⟨2, 2, [[alive, dead], [dead, dead]]⟩ 1).board,
      row.length = 2 :=
  dims_invariant 2 2 [(0, 0)] ⟨2, 2, [[alive, dead], [dead, dead]]⟩
    (by decide) (by decide) 1

/-- C10: a seed coordinate with a negative component inside
`[-rows, rows) × [-cols, cols)` raises no error; construction succeeds
and the cell at `(i mod rows, j mod cols)` — the opposite edge, by
Python negative indexing — is marked alive. -/
theorem init_negative_seed_wraps (rows cols : Nat) (seed : List (Int × Int))
    (i j : Int)
    (hall : ∀ p ∈ seed, -(rows : Int) ≤ p.1 ∧ p.1 < (rows : Int) ∧
      -(cols : Int) ≤ p.2 ∧ p.2 < (cols : Int))
    (hmem : (i, j) ∈ seed) (hneg : i < 0 ∨ j < 0) :
    (Board.init rows cols seed).map
      (fun g => g.cellAt (i % (rows : Int), j % (cols : Int))) = some alive := by
  have hblank : ∀ r ∈ List.replicate rows (List.replicate cols dead),
      r.length = cols := fun r hr => by
    rw [List.eq_of_mem_replicate hr]; exact List.length_replicate _ _
  obtain ⟨bn, hbn⟩ := seedFold_some_of_inrange seed _ rows cols
    (List.length_replicate _ _) hblank hall
  obtain ⟨hi1, hi2, hj1, hj2⟩ := hall (i, j) hmem
  have hmark := seedFold_marks seed _ bn rows cols
    (List.length_replicate _ _) hblank hbn i j hmem hi1 hi2 hj1 hj2
  unfold Board.init
  dsimp only
  rw [hbn]
  simp only [Option.bind_eq_bind, Option.some_bind, pure]
  exact congrArg some hmark

/-- Witness for C10: seed `(-1, 0)` on a 2×2 grid yields a grid with
cell `(1, 0)` alive. -/
theorem init_negative_seed_wraps_witness :
    (Board.init 2 2 [(-1, 0)]).map
      (fun g => g.cellAt ((-1 : Int) % ((2 : Nat) : Int),
        (0 : Int) % ((2 : Nat) : Int))) = some alive :=
  init_negative_seed_wraps 2 2 [(-1, 0)] (-1) 0
    (by decide) (by decide) (by decide)
